import Mathlib

/-!
A shallow embedding of `include/stopwatch.h`.

The header `include/stopwatch.h` defines a cycle-counter clock (`rdtscp_clock`),
a deadline `timer` generic over a clock, and the free functions `time` and
`sample`.

Modelling decisions.

* A clock's tick type `rep` is a 64-bit machine integer, either unsigned
  (`rdtscp_clock::rep = std::uint64_t`) or signed (the tick type of the standard
  clocks, such as the timer's default `std::chrono::system_clock`).  A tick count
  is held as an `Int` lying in the range of its `rep`; every arithmetic result
  is reduced into that range.  For the unsigned type this is the arithmetic
  modulo `2^64` that C++ defines.  For the signed type an overflow is undefined
  in C++; the model takes the two's complement result, and statements that
  depend on the absence of signed overflow carry that as a hypothesis.
* `duration` and `time_point` are tick counts; `time_point + duration`,
  `time_point - time_point` and `time_point >= time_point` act on the counts.
* A clock read and a call of the user's callable are steps on a world: the
  state the clock and the callable live in, together with a log of the reads and
  calls made so far.  The log is ghost state: no definition inspects it.
* A callable either returns normally or throws; in both cases it leaves a state
  behind.
-/

namespace stopwatch

/-! ## Tick arithmetic -/

/-- The tick type of a clock: `std::uint64_t` or a signed 64-bit integer. -/
inductive Rep where
  | u64
  | i64
  deriving DecidableEq, Repr

/-- Reduction of an integer into the range of the tick type. -/
def Rep.wrap : Rep → Int → Int
  | .u64, n => n % 2 ^ 64
  | .i64, n => (n + 2 ^ 63) % 2 ^ 64 - 2 ^ 63

/-- The value is representable in the tick type. -/
def Rep.inRange : Rep → Int → Prop
  | .u64, n => 0 ≤ n ∧ n < 2 ^ 64
  | .i64, n => -(2 ^ 63) ≤ n ∧ n < 2 ^ 63

instance (r : Rep) (n : Int) : Decidable (r.inRange n) := by
  cases r <;> unfold Rep.inRange <;> infer_instance

/-- A count of ticks, `std::chrono::duration<rep, period>`. -/
abbrev duration := Int

/-- A count of ticks since the clock's epoch, `std::chrono::time_point`. -/
abbrev time_point := Int

/-- The sum `time_point + duration`, computed in the tick type. -/
def Rep.add (r : Rep) (t d : Int) : Int := r.wrap (t + d)

/-- The difference `time_point - time_point`, computed in the tick type. -/
def Rep.sub (r : Rep) (a b : Int) : Int := r.wrap (a - b)

/-! ## Worlds, clocks and callables -/

/-- What the log records: a clock read with the value it produced, or one call
of the user's callable. -/
inductive Event where
  | now (t : time_point)
  | call
  deriving DecidableEq, Repr

/-- The state the program runs in, with the log of clock reads and calls. -/
structure World (σ : Type) where
  st : σ
  trace : List Event

/-- The clock concept: a tick type and a `now()` that reads (and may change)
the state. -/
structure Clock (σ : Type) where
  rep : Rep
  now : σ → time_point × σ

/-- A zero-argument callable: it returns normally or throws `ε`, and leaves a
state behind either way. -/
abbrev Func (ε σ : Type) := σ → Except ε Unit × σ

/-- One evaluation of `Clock::now()`. -/
def Clock.read {σ : Type} (C : Clock σ) (w : World σ) : time_point × World σ :=
  let r := C.now w.st
  (r.1, { st := r.2, trace := w.trace ++ [Event.now r.1] })

/-- One evaluation of `function()`. -/
def invoke {ε σ : Type} (function : Func ε σ) (w : World σ) : Except ε Unit × World σ :=
  let r := function w.st
  (r.1, { st := r.2, trace := w.trace ++ [Event.call] })

/-- The number of clock reads in a log. -/
def reads (tr : List Event) : Nat :=
  (tr.filter (fun e => match e with | .now _ => true | .call => false)).length

/-- The number of calls of the callable in a log. -/
def calls (tr : List Event) : Nat :=
  (tr.filter (fun e => match e with | .now _ => false | .call => true)).length

/-! ## `rdtscp_clock` -/

/-- `rdtscp_clock::now()`: the instruction `rdtscp` leaves two 32-bit halves in
`edx` (`hi`) and `eax` (`lo`); the count is `(uint64_t(hi) << 32) | lo`.  The
instruction itself is the parameter `rdtscp`. -/
def rdtscp_clock.now {σ : Type} (rdtscp : σ → (Nat × Nat) × σ) (s : σ) : time_point × σ :=
  let r := rdtscp s
  let hi := r.1.1 % 2 ^ 32
  let lo := r.1.2 % 2 ^ 32
  ((((hi <<< 32) % 2 ^ 64 ||| lo : Nat) : Int), r.2)

/-- The clock `rdtscp_clock`: `rep = std::uint64_t`. -/
def rdtscp_clock {σ : Type} (rdtscp : σ → (Nat × Nat) × σ) : Clock σ :=
  { rep := Rep.u64, now := rdtscp_clock.now rdtscp }

/-! ## `timer` -/

/-- The struct `timer<Clock>`: one constant member, the expiry. -/
structure timer where
  expiry : time_point
  deriving DecidableEq, Repr

/-- The constructor `timer(const duration duration) : expiry(Clock::now() + duration)`. -/
def timer.make {σ : Type} (C : Clock σ) (d : duration) (w : World σ) : timer × World σ :=
  let r := C.read w
  ({ expiry := C.rep.add r.1 d }, r.2)

/-- The function `make_timer<Clock>(duration)`. -/
def make_timer {σ : Type} (C : Clock σ) (d : duration) (w : World σ) : timer × World σ :=
  timer.make C d w

/-- The member `bool done(const time_point now) const { return now >= expiry; }`. -/
def timer.done_at (tm : timer) (now : time_point) : Bool :=
  decide (now ≥ tm.expiry)

/-- The member `bool done() const { return Clock::now() >= expiry; }`. -/
def timer.done {σ : Type} (C : Clock σ) (tm : timer) (w : World σ) : Bool × World σ :=
  let r := C.read w
  (decide (r.1 ≥ tm.expiry), r.2)

/-- The member `duration remaining(const time_point now) const { return expiry - now; }`. -/
def timer.remaining_at (rep : Rep) (tm : timer) (now : time_point) : duration :=
  rep.sub tm.expiry now

/-- The function `time<Clock>(function)`:
`start = Clock::now(); function(); return Clock::now() - start;`.
A throw of the callable leaves `time` at once. -/
def time {ε σ : Type} (C : Clock σ) (function : Func ε σ) (w : World σ) :
    Except ε duration × World σ :=
  let r0 := C.read w
  let start := r0.1
  let r1 := invoke function r0.2
  match r1.1 with
  | .error e => (.error e, r1.2)
  | .ok _ =>
    let r2 := C.read r1.2
    (.ok (C.rep.sub r2.1 start), r2.2)

/-- The call `std::sort(first, last)` of the standard library on tick counts:
the elements in ascending order.  On integers every sorting algorithm gives
this one result. -/
def std_sort (xs : List duration) : List duration :=
  xs.insertionSort (· ≤ ·)

/-- The loop `for (i = 0u; i < N; ++i) samples[i] = time<Clock>(function);`
with `k = N - i` iterations still to run. -/
def sample_loop {ε σ : Type} (C : Clock σ) (function : Func ε σ) :
    Nat → Nat → List duration → World σ → Except ε (List duration) × World σ
  | 0, _, samples, w => (.ok samples, w)
  | k + 1, i, samples, w =>
    let r := time C function w
    match r.1 with
    | .error e => (.error e, r.2)
    | .ok d => sample_loop C function k (i + 1) (samples.set i d) r.2

/-- The function `sample<N, Clock>(function)`.  The array `samples` of `N` slots
starts with indeterminate contents, held here as zeros; the loop fills it and
`std::sort` orders it. -/
def sample {ε σ : Type} (N : Nat) (C : Clock σ) (function : Func ε σ) (w : World σ) :
    Except ε (List duration) × World σ :=
  let r := sample_loop C function N 0 (List.replicate N 0) w
  match r.1 with
  | .error e => (.error e, r.2)
  | .ok samples => (.ok (std_sort samples), r.2)

/-- The run of `n` successive calls `time<Clock>(function)`: the durations they
return, in the order of the calls.  The first throw ends the run. -/
def measurements {ε σ : Type} (C : Clock σ) (function : Func ε σ) :
    Nat → World σ → Except ε (List duration) × World σ
  | 0, w => (.ok [], w)
  | n + 1, w =>
    let r := time C function w
    match r.1 with
    | .error e => (.error e, r.2)
    | .ok d =>
      let rest := measurements C function n r.2
      match rest.1 with
      | .error e => (.error e, rest.2)
      | .ok ds => (.ok (d :: ds), rest.2)

/-- The shape of a log entry: `true` for a call of the callable, `false` for a
clock read. -/
def Event.isCall : Event → Bool
  | .now _ => false
  | .call => true

/-! ## Fixtures: an injected clock and some callables -/

/-- An injected clock over a state whose first component is the clock's
counter: every `now()` advances the counter by the fixed increment `c` (in the
tick type) and returns the counter, as it was before the step when `old` is set
and as it is after the step otherwise. -/
def fake_clock {α : Type} (rep : Rep) (c : duration) (old : Bool) : Clock (Int × α) :=
  { rep := rep
    now := fun s =>
      let v := rep.add s.1 c
      (if old then s.1 else v, (v, s.2)) }

/-- A cycle counter as the instruction `rdtscp` finds it: the state is the
64-bit count, the instruction returns its two halves, and one tick passes. -/
def tsc (n : Nat) : (Nat × Nat) × Nat :=
  ((n / 2 ^ 32 % 2 ^ 32, n % 2 ^ 32), (n + 1) % 2 ^ 64)

/-- A callable with an empty body. -/
def empty_body {ε σ : Type} : Func ε σ := fun s => (.ok (), s)

/-- A callable that counts its invocations in the second component of the state
and keeps the clock busy for a while that depends on the count. -/
def counting {ε : Type} : Func ε (Int × Nat) :=
  fun s => (.ok (), (s.1 + 3 * (((s.2 + 2) % 3 : Nat) : Int), s.2 + 1))

/-- A callable that counts its invocations and throws on the `k`-th. -/
def failing_at (k : Nat) : Func String (Int × Nat) :=
  fun s => (if s.2 + 1 = k then .error "boom" else .ok (), (s.1, s.2 + 1))

theorem Rep.wrap_inRange (r : Rep) (n : Int) : r.inRange (r.wrap n) := by
  cases r <;> simp only [Rep.wrap, Rep.inRange] <;> omega

theorem Rep.wrap_eq_self {r : Rep} {n : Int} (h : r.inRange n) : r.wrap n = n := by
  cases r <;> simp only [Rep.wrap, Rep.inRange] at * <;> omega

theorem Rep.sub_add_cancel (r : Rep) (a b : Int) : r.sub (r.add a b) a = r.wrap b := by
  cases r <;> simp only [Rep.sub, Rep.add, Rep.wrap] <;> omega

theorem Rep.sub_add_add (r : Rep) (a b : Int) :
    r.sub (r.add (r.add a b) b) (r.add a b) = r.wrap b := by
  cases r <;> simp only [Rep.sub, Rep.add, Rep.wrap] <;> omega

/-! ## The log -/

theorem reads_append (xs ys : List Event) : reads (xs ++ ys) = reads xs + reads ys := by
  simp [reads, List.filter_append]

theorem calls_append (xs ys : List Event) : calls (xs ++ ys) = calls xs + calls ys := by
  simp [calls, List.filter_append]

/-! ## One timing -/

/-- What `time` does when the callable returns normally. -/
theorem time_of_ok {ε σ : Type} (C : Clock σ) (function : Func ε σ) (w : World σ)
    (h : (function (C.now w.st).2).1 = .ok ()) :
    time C function w =
      (.ok (C.rep.sub (C.now (function (C.now w.st).2).2).1 (C.now w.st).1),
        { st := (C.now (function (C.now w.st).2).2).2
          trace := w.trace ++ [Event.now (C.now w.st).1, Event.call,
            Event.now (C.now (function (C.now w.st).2).2).1] }) := by
  simp [time, Clock.read, invoke, h]

/-- What `time` does when the callable throws. -/
theorem time_of_error {ε σ : Type} (C : Clock σ) (function : Func ε σ) (w : World σ) (e : ε)
    (h : (function (C.now w.st).2).1 = .error e) :
    time C function w =
      (.error e,
        { st := (function (C.now w.st).2).2
          trace := w.trace ++ [Event.now (C.now w.st).1, Event.call] }) := by
  simp [time, Clock.read, invoke, h]

/-- A run of timings that returns has one duration for each timing. -/
theorem measurements_length {ε σ : Type} (C : Clock σ) (function : Func ε σ) :
    ∀ (n : Nat) (w : World σ) (ds : List duration),
      (measurements C function n w).1 = .ok ds → ds.length = n := by
  intro n
  induction n with
  | zero =>
    intro w ds h
    simp only [measurements] at h
    cases h
    rfl
  | succ n ih =>
    intro w ds h
    simp only [measurements] at h
    split at h
    · cases h
    · rename_i d hd
      split at h
      · cases h
      · rename_i ds' hds
        cases h
        simp [ih _ _ hds]

/-- The loop writes the results of the remaining timings into the slots
`i, i+1, ...` and leaves the other slots alone; it fails as the run of timings
fails. -/
theorem sample_loop_eq {ε σ : Type} (C : Clock σ) (function : Func ε σ) :
    ∀ (k i : Nat) (samples : List duration) (w : World σ), i + k ≤ samples.length →
      sample_loop C function k i samples w =
        match (measurements C function k w).1 with
        | .error e => (.error e, (measurements C function k w).2)
        | .ok ds => (.ok (samples.take i ++ ds ++ samples.drop (i + k)),
            (measurements C function k w).2) := by
  intro k
  induction k with
  | zero =>
    intro i samples w _
    simp [sample_loop, measurements]
  | succ k ih =>
    intro i samples w hlen
    simp only [sample_loop, measurements]
    cases hr : (time C function w).1 with
    | error e => simp
    | ok d =>
      simp only
      rw [ih (i + 1) (samples.set i d) _ (by simp; omega)]
      cases hm : (measurements C function k (time C function w).2).1 with
      | error e => simp
      | ok ds =>
        simp only
        have h1 : (samples.set i d).take (i + 1) = samples.take i ++ [d] := by
          rw [List.set_eq_take_append_cons_drop, if_pos (by omega)]
          have hmin : min i samples.length = i := by omega
          rw [List.take_append_eq_append_take, List.take_take, List.length_take, hmin]
          simp
        have h2 : (samples.set i d).drop (i + 1 + k) = samples.drop (i + (k + 1)) := by
          rw [List.drop_set_of_lt d samples (by omega)]
          congr 1
          omega
        rw [h1, h2]
        simp

/-- The function `sample` is the run of `N` timings followed by the sort. -/
theorem sample_eq {ε σ : Type} (N : Nat) (C : Clock σ) (function : Func ε σ) (w : World σ) :
    sample N C function w =
      match (measurements C function N w).1 with
      | .error e => (.error e, (measurements C function N w).2)
      | .ok ds => (.ok (std_sort ds), (measurements C function N w).2) := by
  simp only [sample]
  rw [sample_loop_eq C function N 0 _ w (by simp)]
  cases hm : (measurements C function N w).1 with
  | error e => simp
  | ok ds =>
    simp

/-- A timing returns only when the callable returned normally. -/
theorem time_ok_inv {ε σ : Type} (C : Clock σ) (function : Func ε σ) (w : World σ)
    (d : duration) (h : (time C function w).1 = .ok d) :
    (function (C.now w.st).2).1 = .ok () := by
  cases hf : (function (C.now w.st).2).1 with
  | error e => rw [time_of_error C function w e hf] at h; cases h
  | ok u => rfl

/-- The log of one timing that returns. -/
theorem time_ok_trace {ε σ : Type} (C : Clock σ) (function : Func ε σ) (w : World σ)
    (d : duration) (h : (time C function w).1 = .ok d) :
    (time C function w).2.trace.map Event.isCall
        = w.trace.map Event.isCall ++ [false, true, false] ∧
      calls (time C function w).2.trace = calls w.trace + 1 ∧
      reads (time C function w).2.trace = reads w.trace + 2 := by
  rw [time_of_ok C function w (time_ok_inv C function w d h)]
  refine ⟨by simp [Event.isCall], ?_, ?_⟩
  · rw [calls_append]; rfl
  · rw [reads_append]; rfl

/-- The log of a run of timings that returns: one block read, call, read for
each timing. -/
theorem measurements_trace {ε σ : Type} (C : Clock σ) (function : Func ε σ) :
    ∀ (n : Nat) (w : World σ) (ds : List duration),
      (measurements C function n w).1 = .ok ds →
        (measurements C function n w).2.trace.map Event.isCall
            = w.trace.map Event.isCall ++ (List.replicate n [false, true, false]).flatten ∧
          calls (measurements C function n w).2.trace = calls w.trace + n ∧
          reads (measurements C function n w).2.trace = reads w.trace + 2 * n := by
  intro n
  induction n with
  | zero =>
    intro w ds _
    simp [measurements]
  | succ n ih =>
    intro w ds h
    simp only [measurements] at h ⊢
    cases hr : (time C function w).1 with
    | error e => rw [hr] at h; cases h
    | ok d =>
      rw [hr] at h
      simp only at h ⊢
      cases hm : (measurements C function n (time C function w).2).1 with
      | error e => rw [hm] at h; cases h
      | ok ds' =>
        simp only
        obtain ⟨t1, t2, t3⟩ := time_ok_trace C function w d hr
        obtain ⟨m1, m2, m3⟩ := ih _ _ hm
        refine ⟨?_, ?_, ?_⟩
        · rw [m1, t1, List.replicate_succ, List.flatten_cons, List.append_assoc]
        · rw [m2, t2]; omega
        · rw [m3, t3]; omega

/-- A callable that never throws makes every run of timings return. -/
theorem measurements_ok {ε σ : Type} (C : Clock σ) (function : Func ε σ)
    (hf : ∀ s, (function s).1 = .ok ()) :
    ∀ (n : Nat) (w : World σ), ∃ ds, (measurements C function n w).1 = .ok ds := by
  intro n
  induction n with
  | zero => intro w; exact ⟨[], rfl⟩
  | succ n ih =>
    intro w
    simp only [measurements]
    rw [time_of_ok C function w (hf _)]
    simp only
    obtain ⟨ds, hds⟩ := ih
      { st := (C.now (function (C.now w.st).2).2).2
        trace := w.trace ++ [Event.now (C.now w.st).1, Event.call,
          Event.now (C.now (function (C.now w.st).2).2).1] }
    rw [hds]
    exact ⟨_, rfl⟩

/-- A run of timings in which the callable throws on the timing after the first
`j`: the run ends there, whatever its intended length. -/
theorem measurements_fail {ε σ : Type} (C : Clock σ) (function : Func ε σ) (e : ε) :
    ∀ (j m : Nat) (w : World σ) (ds : List duration),
      (measurements C function j w).1 = .ok ds →
      (time C function (measurements C function j w).2).1 = .error e →
        measurements C function (j + 1 + m) w
          = (.error e, (time C function (measurements C function j w).2).2) := by
  intro j
  induction j with
  | zero =>
    intro m w ds _ hfail
    simp only [measurements] at hfail
    rw [show 0 + 1 + m = m + 1 by omega]
    simp only [measurements]
    rw [hfail]
  | succ j ih =>
    intro m w ds h hfail
    rw [show j + 1 + 1 + m = (j + 1 + m) + 1 by omega]
    simp only [measurements] at h hfail ⊢
    cases hr : (time C function w).1 with
    | error e' => rw [hr] at h; cases h
    | ok d =>
      rw [hr] at h hfail
      simp only at h hfail ⊢
      cases hm : (measurements C function j (time C function w).2).1 with
      | error e' => rw [hm] at h; cases h
      | ok ds' =>
        rw [hm] at hfail
        simp only at hfail
        rw [ih m _ ds' hm hfail]

/-! ## Claims on `time` and `sample` -/

/-- C1: for every count `N` (in particular every `N ≥ 1`), every clock and every
callable that does not fail, `sample<N>` returns a sequence of exactly `N`
durations that is sorted ascending: `result[i] ≤ result[i+1]` whenever
`i + 1 < N`. -/
theorem sample_length_sorted {ε σ : Type} (N : Nat) (C : Clock σ) (function : Func ε σ)
    (w : World σ) (hf : ∀ s, (function s).1 = .ok ()) :
    ∃ xs : List duration,
      (sample N C function w).1 = .ok xs ∧ xs.length = N ∧ List.Sorted (· ≤ ·) xs ∧
        ∀ (i : Nat) (h : i + 1 < xs.length),
          xs.get ⟨i, Nat.lt_of_succ_lt h⟩ ≤ xs.get ⟨i + 1, h⟩ := by
  obtain ⟨ds, hds⟩ := measurements_ok C function hf N w
  have hlen := measurements_length C function N w ds hds
  have hsorted : List.Sorted (· ≤ ·) (std_sort ds) := List.sorted_insertionSort _ ds
  refine ⟨std_sort ds, ?_, ?_, hsorted, ?_⟩
  · rw [sample_eq, hds]
  · rw [std_sort, List.length_insertionSort, hlen]
  · intro i h
    exact hsorted.rel_get_of_lt (Nat.lt_succ_self i)

theorem sample_length_sorted_witness :
    (∀ s, ((counting (ε := String)) s).1 = .ok ()) ∧
    ∃ xs : List duration,
      (sample 3 (fake_clock Rep.u64 1 true) (counting (ε := String))
          { st := (0, 0), trace := [] }).1 = .ok xs ∧
        xs.length = 3 ∧ List.Sorted (· ≤ ·) xs ∧
        ∀ (i : Nat) (h : i + 1 < xs.length),
          xs.get ⟨i, Nat.lt_of_succ_lt h⟩ ≤ xs.get ⟨i + 1, h⟩ :=
  ⟨fun _ => rfl,
    sample_length_sorted 3 (fake_clock Rep.u64 1 true) (counting (ε := String))
      { st := (0, 0), trace := [] } (fun _ => rfl)⟩

/-- C3: with the injected clock that advances by a fixed increment `c` on every
`now()`, and a callable with an empty body, `time` returns exactly `c`, for
every increment `c` of the tick type and every starting value of the clock
(also when the counter wraps between the two reads). -/
theorem time_fake_clock_empty_body {ε α : Type} (rep : Rep) (c : duration) (old : Bool)
    (v : Int) (a : α) (tr : List Event) (hc : rep.inRange c) :
    (time (fake_clock rep c old) (empty_body (ε := ε)) { st := (v, a), trace := tr }).1
      = .ok c := by
  rw [time_of_ok _ _ _ rfl]
  cases old
  · simp only [fake_clock, empty_body, Bool.false_eq_true, if_false]
    rw [Rep.sub_add_add, Rep.wrap_eq_self hc]
  · simp only [fake_clock, empty_body, if_true]
    rw [Rep.sub_add_cancel, Rep.wrap_eq_self hc]

theorem time_fake_clock_empty_body_witness :
    Rep.u64.inRange 5 ∧
    (time (fake_clock Rep.u64 5 false) (empty_body (ε := String))
        { st := (2 ^ 64 - 3, ()), trace := [] }).1 = .ok 5 :=
  ⟨by decide, time_fake_clock_empty_body Rep.u64 5 false (2 ^ 64 - 3) () [] (by decide)⟩

/-- C4: `sample<0>` returns the empty sequence and leaves the world as it
found it: the callable is not invoked and the clock is not read, for every
clock and callable. -/
theorem sample_zero {ε σ : Type} (C : Clock σ) (function : Func ε σ) (w : World σ) :
    sample 0 C function w = (.ok [], w) ∧
      calls (sample 0 C function w).2.trace = calls w.trace ∧
      reads (sample 0 C function w).2.trace = reads w.trace := by
  refine ⟨rfl, rfl, rfl⟩

/-- C5: for every `N` and every callable that does not fail, `sample<N>` does
what `N` successive calls of `time` do: its log grows by `N` blocks
read, call, read, so the callable is invoked exactly `N` times and the clock is
read exactly `2N` times. -/
theorem sample_runs_time_N_times {ε σ : Type} (N : Nat) (C : Clock σ) (function : Func ε σ)
    (w : World σ) (hf : ∀ s, (function s).1 = .ok ()) :
    (∃ ds, (measurements C function N w).1 = .ok ds) ∧
      (sample N C function w).2 = (measurements C function N w).2 ∧
      (sample N C function w).2.trace.map Event.isCall
        = w.trace.map Event.isCall ++ (List.replicate N [false, true, false]).flatten ∧
      calls (sample N C function w).2.trace = calls w.trace + N ∧
      reads (sample N C function w).2.trace = reads w.trace + 2 * N := by
  obtain ⟨ds, hds⟩ := measurements_ok C function hf N w
  have hw : (sample N C function w).2 = (measurements C function N w).2 := by
    rw [sample_eq, hds]
  rw [hw]
  exact ⟨⟨ds, hds⟩, rfl, measurements_trace C function N w ds hds⟩

theorem sample_runs_time_N_times_witness :
    (∀ s, ((counting (ε := String)) s).1 = .ok ()) ∧
    ((∃ ds, (measurements (fake_clock Rep.u64 1 true) (counting (ε := String)) 3
        { st := (0, 0), trace := [] }).1 = .ok ds) ∧
      (sample 3 (fake_clock Rep.u64 1 true) (counting (ε := String))
          { st := (0, 0), trace := [] }).2
        = (measurements (fake_clock Rep.u64 1 true) (counting (ε := String)) 3
          { st := (0, 0), trace := [] }).2 ∧
      (sample 3 (fake_clock Rep.u64 1 true) (counting (ε := String))
          { st := (0, 0), trace := [] }).2.trace.map Event.isCall
        = ([] : List Event).map Event.isCall ++ (List.replicate 3 [false, true, false]).flatten ∧
      calls (sample 3 (fake_clock Rep.u64 1 true) (counting (ε := String))
          { st := (0, 0), trace := [] }).2.trace = calls [] + 3 ∧
      reads (sample 3 (fake_clock Rep.u64 1 true) (counting (ε := String))
          { st := (0, 0), trace := [] }).2.trace = reads [] + 2 * 3) :=
  ⟨fun _ => rfl,
    sample_runs_time_N_times 3 (fake_clock Rep.u64 1 true) (counting (ε := String))
      { st := (0, 0), trace := [] } (fun _ => rfl)⟩

/-- C6: when the `N` successive calls of `time` produce the durations `ds`,
`sample<N>` returns, and what it returns is a permutation of `ds` (nothing
dropped, duplicated or altered) in ascending order; the calls of `time` behind
`ds` are the ones `sample` makes (it ends in the same world). -/
theorem sample_perm_measurements {ε σ : Type} (N : Nat) (C : Clock σ) (function : Func ε σ)
    (w : World σ) (ds : List duration) (hds : (measurements C function N w).1 = .ok ds) :
    ∃ xs : List duration,
      (sample N C function w).1 = .ok xs ∧
        (sample N C function w).2 = (measurements C function N w).2 ∧
        ds.length = N ∧ xs.Perm ds ∧ List.Sorted (· ≤ ·) xs := by
  refine ⟨std_sort ds, ?_, ?_, measurements_length C function N w ds hds,
    List.perm_insertionSort _ ds, List.sorted_insertionSort _ ds⟩
  · rw [sample_eq, hds]
  · rw [sample_eq, hds]

theorem sample_perm_measurements_witness :
    (measurements (fake_clock Rep.u64 1 true) (counting (ε := String)) 3
        { st := (0, 0), trace := [] }).1 = .ok [7, 1, 4] ∧
    ∃ xs : List duration,
      (sample 3 (fake_clock Rep.u64 1 true) (counting (ε := String))
          { st := (0, 0), trace := [] }).1 = .ok xs ∧
        (sample 3 (fake_clock Rep.u64 1 true) (counting (ε := String))
            { st := (0, 0), trace := [] }).2
          = (measurements (fake_clock Rep.u64 1 true) (counting (ε := String)) 3
            { st := (0, 0), trace := [] }).2 ∧
        [(7 : duration), 1, 4].length = 3 ∧ xs.Perm [7, 1, 4] ∧ List.Sorted (· ≤ ·) xs :=
  ⟨rfl,
    sample_perm_measurements 3 (fake_clock Rep.u64 1 true) (counting (ε := String))
      { st := (0, 0), trace := [] } [7, 1, 4] rfl⟩

/-- C7: if the callable fails on its `k`-th invocation (`1 ≤ k ≤ N`; the first
`k - 1` timings return and the callable throws `e` in the `k`-th), then
`sample<N>` fails with that same `e` and returns no sequence; the callable has
been invoked exactly `k` times and the clock read `2(k-1) + 1` times: the
remaining `N - k` iterations are not run, and the world is the one the failing
call left. -/
theorem sample_propagates_failure {ε σ : Type} (N k : Nat) (C : Clock σ)
    (function : Func ε σ) (w : World σ) (e : ε) (ds : List duration)
    (hk : 1 ≤ k) (hkN : k ≤ N)
    (hprev : (measurements C function (k - 1) w).1 = .ok ds)
    (hfail : (function (C.now (measurements C function (k - 1) w).2.st).2).1 = .error e) :
    (sample N C function w).1 = .error e ∧
      calls (sample N C function w).2.trace = calls w.trace + k ∧
      reads (sample N C function w).2.trace = reads w.trace + 2 * (k - 1) + 1 ∧
      (sample N C function w).2.trace.map Event.isCall
        = w.trace.map Event.isCall
            ++ (List.replicate (k - 1) [false, true, false]).flatten ++ [false, true] ∧
      (sample N C function w).2.st
        = (function (C.now (measurements C function (k - 1) w).2.st).2).2 := by
  have ht := time_of_error C function (measurements C function (k - 1) w).2 e hfail
  have hm := measurements_fail C function e (k - 1) (N - k) w ds hprev (by rw [ht])
  rw [show k - 1 + 1 + (N - k) = N by omega] at hm
  obtain ⟨m1, m2, m3⟩ := measurements_trace C function (k - 1) w ds hprev
  have hs : sample N C function w
      = (.error e, (time C function (measurements C function (k - 1) w).2).2) := by
    rw [sample_eq, hm]
  rw [hs, ht]
  refine ⟨rfl, ?_, ?_, ?_, rfl⟩
  · show calls (_ ++ _) = _
    rw [calls_append, m2]
    show calls w.trace + (k - 1) + 1 = _
    omega
  · show reads (_ ++ _) = _
    rw [reads_append, m3]
    rfl
  · show List.map Event.isCall (_ ++ _) = _
    rw [List.map_append, m1]
    rfl

theorem sample_propagates_failure_witness :
    (1 ≤ 2 ∧ 2 ≤ 3 ∧
      (measurements (fake_clock Rep.u64 1 true) (failing_at 2) (2 - 1)
          { st := (0, 0), trace := [] }).1 = .ok [1] ∧
      ((failing_at 2) ((fake_clock Rep.u64 1 true).now
          (measurements (fake_clock Rep.u64 1 true) (failing_at 2) (2 - 1)
            { st := (0, 0), trace := [] }).2.st).2).1 = .error "boom") ∧
    ((sample 3 (fake_clock Rep.u64 1 true) (failing_at 2)
          { st := (0, 0), trace := [] }).1 = .error "boom" ∧
      calls (sample 3 (fake_clock Rep.u64 1 true) (failing_at 2)
          { st := (0, 0), trace := [] }).2.trace = calls [] + 2 ∧
      reads (sample 3 (fake_clock Rep.u64 1 true) (failing_at 2)
          { st := (0, 0), trace := [] }).2.trace = reads [] + 2 * (2 - 1) + 1 ∧
      (sample 3 (fake_clock Rep.u64 1 true) (failing_at 2)
          { st := (0, 0), trace := [] }).2.trace.map Event.isCall
        = ([] : List Event).map Event.isCall
            ++ (List.replicate (2 - 1) [false, true, false]).flatten ++ [false, true] ∧
      (sample 3 (fake_clock Rep.u64 1 true) (failing_at 2)
          { st := (0, 0), trace := [] }).2.st
        = ((failing_at 2) ((fake_clock Rep.u64 1 true).now
            (measurements (fake_clock Rep.u64 1 true) (failing_at 2) (2 - 1)
              { st := (0, 0), trace := [] }).2.st).2).2) :=
  ⟨⟨by decide, by decide, rfl, rfl⟩,
    sample_propagates_failure 3 2 (fake_clock Rep.u64 1 true) (failing_at 2)
      { st := (0, 0), trace := [] } "boom" [1] (by decide) (by decide) rfl rfl⟩

/-! ## Claims on `timer` -/

/-- C8, as stated, fails on the cycle-counter clock: a timer made at count 100
with duration 5 expires at 105; at the time point 200, past the expiry, its
`remaining` is `2^64 - 95`, which is not negative and is not `105 - 200`. -/
theorem remaining_rdtscp_past_expiry :
    (timer.make (rdtscp_clock tsc) 5 { st := 100, trace := [] }).1 = { expiry := 105 } ∧
      Rep.u64.inRange 105 ∧ Rep.u64.inRange 200 ∧ (200 : time_point) > 105 ∧
      timer.remaining_at (rdtscp_clock tsc).rep { expiry := 105 } 200 = 2 ^ 64 - 95 ∧
      ¬ (timer.remaining_at (rdtscp_clock tsc).rep { expiry := 105 } 200 < 0) ∧
      timer.remaining_at (rdtscp_clock tsc).rep { expiry := 105 } 200 ≠ 105 - 200 := by
  decide

/-- C8, amended: `remaining(now)` is `expiry - now` computed in the clock's tick
type, so it is `expiry - now` whenever that difference is representable.  On a
signed tick type it is then negative whenever `now > expiry`.  On the unsigned
tick type of the cycle-counter clock it is `(expiry - now) mod 2^64`, never
negative: `expiry - now` when `now ≤ expiry`, and `2^64 - (now - expiry)` when
`now > expiry`. -/
theorem remaining_at_value (rep : Rep) (tm : timer) (now : time_point)
    (he : rep.inRange tm.expiry) (hn : rep.inRange now) :
    (rep.inRange (tm.expiry - now) → timer.remaining_at rep tm now = tm.expiry - now) ∧
    (rep = Rep.i64 → rep.inRange (tm.expiry - now) → now > tm.expiry →
        timer.remaining_at rep tm now < 0) ∧
    (rep = Rep.u64 →
        timer.remaining_at rep tm now = (tm.expiry - now) % 2 ^ 64 ∧
        0 ≤ timer.remaining_at rep tm now ∧
        (now ≤ tm.expiry → timer.remaining_at rep tm now = tm.expiry - now) ∧
        (now > tm.expiry → timer.remaining_at rep tm now = 2 ^ 64 - (now - tm.expiry))) := by
  refine ⟨fun hd => Rep.wrap_eq_self hd, ?_, ?_⟩
  · intro _ hd hlt
    show rep.wrap (tm.expiry - now) < 0
    rw [Rep.wrap_eq_self hd]
    unfold time_point at *
    omega
  · intro hu
    subst hu
    simp only [Rep.inRange] at he hn
    simp only [timer.remaining_at, Rep.sub, Rep.wrap]
    unfold time_point duration at *
    refine ⟨trivial, ?_, ?_, ?_⟩ <;> omega

theorem remaining_at_value_witness :
    (Rep.i64.inRange (timer.mk 105).expiry ∧ Rep.i64.inRange 200 ∧
      Rep.i64.inRange ((timer.mk 105).expiry - 200) ∧ (200 : time_point) > (timer.mk 105).expiry) ∧
    timer.remaining_at Rep.i64 { expiry := 105 } 200 = (timer.mk 105).expiry - 200 ∧
    timer.remaining_at Rep.i64 { expiry := 105 } 200 < 0 ∧
    (Rep.u64.inRange (timer.mk 105).expiry ∧ Rep.u64.inRange 200) ∧
    timer.remaining_at Rep.u64 { expiry := 105 } 200 = 2 ^ 64 - (200 - (timer.mk 105).expiry) :=
  ⟨⟨by decide, by decide, by decide, by decide⟩,
    (remaining_at_value Rep.i64 { expiry := 105 } 200 (by decide) (by decide)).1 (by decide),
    (remaining_at_value Rep.i64 { expiry := 105 } 200 (by decide) (by decide)).2.1 rfl
      (by decide) (by decide),
    ⟨by decide, by decide⟩,
    ((remaining_at_value Rep.u64 { expiry := 105 } 200 (by decide) (by decide)).2.2 rfl).2.2.2
      (by decide)⟩

/-- C9, as stated, fails on the cycle-counter clock: two timers made from the
snapshot 1000 with durations `5 < 2^64 - 1` expire at 1005 and, after the sum
wraps, at 999; at the time point 1000 the second is done and the first is not. -/
theorem timer_expiry_wraps :
    (5 : duration) < 2 ^ 64 - 1 ∧ Rep.u64.inRange 5 ∧ Rep.u64.inRange (2 ^ 64 - 1) ∧
      ((rdtscp_clock tsc).now 1000).1 = 1000 ∧
      (timer.make (rdtscp_clock tsc) 5 { st := 1000, trace := [] }).1
        = { expiry := 1005 } ∧
      (timer.make (rdtscp_clock tsc) (2 ^ 64 - 1) { st := 1000, trace := [] }).1
        = { expiry := 999 } ∧
      (1000 : time_point) ≥ ((rdtscp_clock tsc).now 1000).1 ∧
      (timer.make (rdtscp_clock tsc) (2 ^ 64 - 1)
        { st := 1000, trace := [] }).1.done_at 1000 = true ∧
      (timer.make (rdtscp_clock tsc) 5 { st := 1000, trace := [] }).1.done_at 1000 = false ∧
      ¬ ((timer.make (rdtscp_clock tsc) 5 { st := 1000, trace := [] }).1.expiry
          ≤ (timer.make (rdtscp_clock tsc) (2 ^ 64 - 1)
              { st := 1000, trace := [] }).1.expiry) := by
  decide

/-- C9, amended: for two timers made from the same `now()` snapshot `t0` with
durations `D1 < D2` such that neither `t0 + D1` nor `t0 + D2` leaves the range
of the clock's tick type, the first expires no later than the second:
`expiry1 ≤ expiry2`, and at every time point where the second is done the first
is done. -/
theorem timer_expiry_monotone {σ : Type} (C : Clock σ) (w : World σ) (D1 D2 : duration)
    (hD : D1 < D2)
    (h1 : C.rep.inRange ((C.now w.st).1 + D1)) (h2 : C.rep.inRange ((C.now w.st).1 + D2)) :
    (timer.make C D1 w).1.expiry ≤ (timer.make C D2 w).1.expiry ∧
      ∀ t : time_point, (timer.make C D2 w).1.done_at t = true →
        (timer.make C D1 w).1.done_at t = true := by
  have hle : (timer.make C D1 w).1.expiry ≤ (timer.make C D2 w).1.expiry := by
    show C.rep.wrap ((C.now w.st).1 + D1) ≤ C.rep.wrap ((C.now w.st).1 + D2)
    rw [Rep.wrap_eq_self h1, Rep.wrap_eq_self h2]
    unfold duration at *
    omega
  refine ⟨hle, fun t ht => ?_⟩
  simp only [timer.done_at, decide_eq_true_eq] at ht ⊢
  exact le_trans hle ht

theorem timer_expiry_monotone_witness :
    ((5 : duration) < 70 ∧
      (rdtscp_clock tsc).rep.inRange (((rdtscp_clock tsc).now 1000).1 + 5) ∧
      (rdtscp_clock tsc).rep.inRange (((rdtscp_clock tsc).now 1000).1 + 70)) ∧
    ((timer.make (rdtscp_clock tsc) 5 { st := 1000, trace := [] }).1.expiry
        ≤ (timer.make (rdtscp_clock tsc) 70 { st := 1000, trace := [] }).1.expiry ∧
      ∀ t : time_point,
        (timer.make (rdtscp_clock tsc) 70 { st := 1000, trace := [] }).1.done_at t = true →
        (timer.make (rdtscp_clock tsc) 5 { st := 1000, trace := [] }).1.done_at t = true) :=
  ⟨⟨by decide, by decide, by decide⟩,
    timer_expiry_monotone (rdtscp_clock tsc) { st := 1000, trace := [] } 5 70
      (by decide) (by decide) (by decide)⟩

/-- C10: a timer made with duration 0 on a clock whose next reading is not
below the reading the constructor took reports `done() == true` on the very
next query. -/
theorem timer_zero_done {σ : Type} (C : Clock σ) (w : World σ)
    (hr : C.rep.inRange (C.now w.st).1)
    (hmono : (C.now w.st).1 ≤ (C.now (C.now w.st).2).1) :
    (timer.done C (make_timer C 0 w).1 (make_timer C 0 w).2).1 = true := by
  simp only [timer.done, make_timer, timer.make, Clock.read, Rep.add, decide_eq_true_eq]
  rw [Int.add_zero, Rep.wrap_eq_self hr]
  exact hmono

theorem timer_zero_done_witness :
    ((fake_clock (α := Unit) Rep.i64 1 true).rep.inRange
        ((fake_clock (α := Unit) Rep.i64 1 true).now (41, ())).1 ∧
      ((fake_clock (α := Unit) Rep.i64 1 true).now (41, ())).1
        ≤ ((fake_clock Rep.i64 1 true).now
            ((fake_clock (α := Unit) Rep.i64 1 true).now (41, ())).2).1) ∧
    (timer.done (fake_clock Rep.i64 1 true)
        (make_timer (fake_clock (α := Unit) Rep.i64 1 true) 0
          { st := (41, ()), trace := [] }).1
        (make_timer (fake_clock (α := Unit) Rep.i64 1 true) 0
          { st := (41, ()), trace := [] }).2).1 = true :=
  ⟨⟨by decide, by decide⟩,
    timer_zero_done (fake_clock Rep.i64 1 true) { st := (41, ()), trace := [] }
      (by decide) (by decide)⟩

/-! ## Further claims on `timer` and `time` -/

/-- The value `(uint64_t(hi) << 32) | lo` of two 32-bit halves. -/
theorem shift_or_eq (hi lo : Nat) (hhi : hi < 2 ^ 32) (hlo : lo < 2 ^ 32) :
    (hi <<< 32) % 2 ^ 64 ||| lo = hi * 2 ^ 32 + lo := by
  have h : 2 ^ 32 * hi + lo = 2 ^ 32 * hi ||| lo := Nat.mul_add_lt_is_or hlo hi
  rw [Nat.shiftLeft_eq, Nat.mod_eq_of_lt (by omega), Nat.mul_comm hi, ← h]

/-- What `rdtscp_clock::now()` returns, as a natural number. -/
theorem rdtscp_now_val {σ : Type} (rdtscp : σ → (Nat × Nat) × σ) (s : σ) :
    (rdtscp_clock.now rdtscp s).1
      = (((rdtscp s).1.1 % 2 ^ 32 * 2 ^ 32 + (rdtscp s).1.2 % 2 ^ 32 : Nat) : Int) := by
  simp only [rdtscp_clock.now]
  rw [shift_or_eq _ _ (Nat.mod_lt _ (by decide)) (Nat.mod_lt _ (by decide))]

/-- Every reading of the cycle counter is a 64-bit unsigned value. -/
theorem rdtscp_now_inRange {σ : Type} (rdtscp : σ → (Nat × Nat) × σ) (s : σ) :
    Rep.u64.inRange (rdtscp_clock.now rdtscp s).1 := by
  rw [rdtscp_now_val]
  simp only [Rep.inRange]
  omega

/-- C14: for every pair of 32-bit values `hi`, `lo` that the instruction
delivers, the count returned by `rdtscp_clock::now()` is `hi * 2^32 + lo`; it
fits in 64 bits, its halves are recoverable (`count >> 32 == hi`,
`count mod 2^32 == lo`), and so two readings with the same count come from the
same pair of halves. -/
theorem rdtscp_now_count {σ : Type} (rdtscp : σ → (Nat × Nat) × σ) (s s' : σ)
    (hi lo hi' lo' : Nat) (hhi : hi < 2 ^ 32) (hlo : lo < 2 ^ 32)
    (hhi' : hi' < 2 ^ 32) (hlo' : lo' < 2 ^ 32)
    (hrd : (rdtscp s).1 = (hi, lo)) (hrd' : (rdtscp s').1 = (hi', lo')) :
    (rdtscp_clock.now rdtscp s).1 = (hi : Int) * 2 ^ 32 + lo ∧
      Rep.u64.inRange (rdtscp_clock.now rdtscp s).1 ∧
      (rdtscp_clock.now rdtscp s).1.toNat >>> 32 = hi ∧
      (rdtscp_clock.now rdtscp s).1 % 2 ^ 32 = lo ∧
      ((rdtscp_clock.now rdtscp s).1 = (rdtscp_clock.now rdtscp s').1 →
        hi = hi' ∧ lo = lo') := by
  have hv : (rdtscp_clock.now rdtscp s).1 = ((hi * 2 ^ 32 + lo : Nat) : Int) := by
    rw [rdtscp_now_val, hrd]
    simp only [Nat.mod_eq_of_lt hhi, Nat.mod_eq_of_lt hlo]
  have hv' : (rdtscp_clock.now rdtscp s').1 = ((hi' * 2 ^ 32 + lo' : Nat) : Int) := by
    rw [rdtscp_now_val, hrd']
    simp only [Nat.mod_eq_of_lt hhi', Nat.mod_eq_of_lt hlo']
  refine ⟨?_, rdtscp_now_inRange rdtscp s, ?_, ?_, ?_⟩
  · rw [hv]
    push_cast
    rfl
  · rw [hv, Int.toNat_ofNat, Nat.shiftRight_eq_div_pow]
    omega
  · rw [hv]
    show (((hi * 2 ^ 32 + lo : Nat) : Int) % 2 ^ 32 = (lo : Int))
    omega
  · intro h
    rw [hv, hv'] at h
    have h' : ((hi * 2 ^ 32 + lo : Nat) : Int) = ((hi' * 2 ^ 32 + lo' : Nat) : Int) := h
    omega

theorem rdtscp_now_count_witness :
    ((3 : Nat) < 2 ^ 32 ∧ (4294967295 : Nat) < 2 ^ 32 ∧ (7 : Nat) < 2 ^ 32 ∧
      (0 : Nat) < 2 ^ 32 ∧ (tsc 17179869183).1 = (3, 4294967295) ∧
      (tsc 30064771072).1 = (7, 0)) ∧
    ((rdtscp_clock.now tsc 17179869183).1 = ((3 : Nat) : Int) * 2 ^ 32 + (4294967295 : Nat) ∧
      Rep.u64.inRange (rdtscp_clock.now tsc 17179869183).1 ∧
      (rdtscp_clock.now tsc 17179869183).1.toNat >>> 32 = 3 ∧
      (rdtscp_clock.now tsc 17179869183).1 % 2 ^ 32 = (4294967295 : Nat) ∧
      ((rdtscp_clock.now tsc 17179869183).1 = (rdtscp_clock.now tsc 30064771072).1 →
        3 = 7 ∧ 4294967295 = 0)) :=
  ⟨⟨by decide, by decide, by decide, by decide, by decide, by decide⟩,
    rdtscp_now_count tsc 17179869183 30064771072 3 4294967295 7 0
      (by decide) (by decide) (by decide) (by decide) (by decide) (by decide)⟩

/-- C15, as stated, fails on the cycle-counter clock: a timer made at count 100
with duration 5 expires at 105; at the time point 106 it is done, yet its
`remaining` is `2^64 - 1`, which is not `≤ 0`. -/
theorem done_but_remaining_positive :
    (timer.make (rdtscp_clock tsc) 5 { st := 100, trace := [] }).1 = { expiry := 105 } ∧
      Rep.u64.inRange 106 ∧
      (timer.make (rdtscp_clock tsc) 5 { st := 100, trace := [] }).1.done_at 106 = true ∧
      timer.remaining_at (rdtscp_clock tsc).rep
        (timer.make (rdtscp_clock tsc) 5 { st := 100, trace := [] }).1 106 = 2 ^ 64 - 1 ∧
      ¬ (timer.remaining_at (rdtscp_clock tsc).rep
        (timer.make (rdtscp_clock tsc) 5 { st := 100, trace := [] }).1 106 ≤ 0) := by
  decide

/-- C15, amended: whenever `expiry - now` is representable in the tick type (on
a signed tick type: the subtraction does not overflow), `done(now)` is true if
and only if `remaining(now) ≤ 0`.  On the unsigned tick type of the
cycle-counter clock `remaining(now) ≤ 0` holds if and only if `now == expiry`;
it implies `done(now)`, and `remaining(now)` is positive while the timer is not
done. -/
theorem done_iff_remaining (rep : Rep) (tm : timer) (now : time_point)
    (he : rep.inRange tm.expiry) (hn : rep.inRange now) :
    (rep.inRange (tm.expiry - now) →
        (tm.done_at now = true ↔ timer.remaining_at rep tm now ≤ 0)) ∧
    (rep = Rep.u64 →
        (timer.remaining_at rep tm now ≤ 0 ↔ now = tm.expiry) ∧
        (timer.remaining_at rep tm now ≤ 0 → tm.done_at now = true) ∧
        (tm.done_at now = false → 0 < timer.remaining_at rep tm now)) := by
  constructor
  · intro hd
    have hv : timer.remaining_at rep tm now = tm.expiry - now := Rep.wrap_eq_self hd
    rw [hv]
    simp only [timer.done_at, decide_eq_true_eq]
    unfold time_point duration at *
    constructor <;> intro h <;> omega
  · intro hu
    subst hu
    simp only [Rep.inRange] at he hn
    simp only [timer.remaining_at, Rep.sub, Rep.wrap, timer.done_at, decide_eq_true_eq,
      decide_eq_false_iff_not]
    unfold time_point duration at *
    refine ⟨⟨fun h => ?_, fun h => ?_⟩, fun h => ?_, fun h => ?_⟩ <;> omega

theorem done_iff_remaining_witness :
    (Rep.i64.inRange (timer.mk 105).expiry ∧ Rep.i64.inRange 106 ∧
      Rep.i64.inRange ((timer.mk 105).expiry - 106)) ∧
    ((timer.mk 105).done_at 106 = true ↔ timer.remaining_at Rep.i64 (timer.mk 105) 106 ≤ 0) ∧
    (Rep.u64.inRange (timer.mk 105).expiry ∧ Rep.u64.inRange 100) ∧
    ((timer.mk 105).done_at 100 = false → 0 < timer.remaining_at Rep.u64 (timer.mk 105) 100) :=
  ⟨⟨by decide, by decide, by decide⟩,
    (done_iff_remaining Rep.i64 (timer.mk 105) 106 (by decide) (by decide)).1 (by decide),
    ⟨by decide, by decide⟩,
    ((done_iff_remaining Rep.u64 (timer.mk 105) 100 (by decide) (by decide)).2 rfl).2.2⟩

/-- C17: in the clock's tick arithmetic `remaining` undoes the construction:
for every timer and time point, `now + remaining(now) == expiry`; a timer built
at clock value `t0` with duration `d` has `remaining(t0) == d`; and for any two
time points, `remaining(t1) - remaining(t2) == t2 - t1`.  Where `expiry - now`
is representable the first equation also holds for the plain integers. -/
theorem remaining_undoes_make {σ : Type} (C : Clock σ) (w : World σ) (tm : timer)
    (d : duration) (now t1 t2 : time_point)
    (he : C.rep.inRange tm.expiry) (hd : C.rep.inRange d) :
    C.rep.add now (timer.remaining_at C.rep tm now) = tm.expiry ∧
      timer.remaining_at C.rep (timer.make C d w).1 (C.now w.st).1 = d ∧
      C.rep.sub (timer.remaining_at C.rep tm t1) (timer.remaining_at C.rep tm t2)
        = C.rep.sub t2 t1 ∧
      (C.rep.inRange (tm.expiry - now) → now + timer.remaining_at C.rep tm now = tm.expiry) := by
  refine ⟨?_, ?_, ?_, ?_⟩
  · have h : C.rep.add now (timer.remaining_at C.rep tm now) = C.rep.wrap tm.expiry := by
      simp only [timer.remaining_at, Rep.add, Rep.sub]
      cases C.rep <;> simp only [Rep.wrap] <;> unfold time_point at * <;> omega
    rw [h, Rep.wrap_eq_self he]
  · show C.rep.sub (C.rep.add (C.now w.st).1 d) (C.now w.st).1 = d
    rw [Rep.sub_add_cancel, Rep.wrap_eq_self hd]
  · simp only [timer.remaining_at, Rep.sub]
    cases C.rep <;> simp only [Rep.wrap] <;> unfold time_point at * <;> omega
  · intro hr
    have h : timer.remaining_at C.rep tm now = tm.expiry - now := Rep.wrap_eq_self hr
    rw [h]
    unfold time_point at *
    omega

theorem remaining_undoes_make_witness :
    ((rdtscp_clock tsc).rep.inRange (timer.mk 105).expiry ∧
      (rdtscp_clock tsc).rep.inRange 5) ∧
    ((rdtscp_clock tsc).rep.add 200 (timer.remaining_at (rdtscp_clock tsc).rep (timer.mk 105) 200)
        = (timer.mk 105).expiry ∧
      timer.remaining_at (rdtscp_clock tsc).rep
        (timer.make (rdtscp_clock tsc) 5 { st := 100, trace := [] }).1
        ((rdtscp_clock tsc).now 100).1 = 5 ∧
      (rdtscp_clock tsc).rep.sub (timer.remaining_at (rdtscp_clock tsc).rep (timer.mk 105) 200)
          (timer.remaining_at (rdtscp_clock tsc).rep (timer.mk 105) 50)
        = (rdtscp_clock tsc).rep.sub 50 200 ∧
      ((rdtscp_clock tsc).rep.inRange ((timer.mk 105).expiry - 200) →
        200 + timer.remaining_at (rdtscp_clock tsc).rep (timer.mk 105) 200
          = (timer.mk 105).expiry)) :=
  ⟨⟨by decide, by decide⟩,
    remaining_undoes_make (rdtscp_clock tsc) { st := 100, trace := [] } (timer.mk 105) 5
      200 200 50 (by decide) (by decide)⟩

end stopwatch
